import Mathlib

/-!
Shallow embedding of the selection/filtering core of the
`yew-bulma-search-select` widget: the Rust enum `Selection`
(selection.rs), the enum `Filtered` and the container `SelectState`
(state.rs).

Modelling conventions:
* `BTreeSet<usize>` becomes `Finset ℕ`; its ascending iteration becomes
  `Finset.sort (· ≤ ·)`.
* The `Arc`/`RwLock` wrappers are elided: the embedding is sequential and
  every lock acquisition succeeds, so each Rust method becomes a pure
  state transformer returning the new state (and the method's return
  value where it has one).
* The `SelectFilter<T>` callback is the function field `filter_fn`.
-/

/-- Rust enum `Selection` (selection.rs): cardinality policy together
with the currently chosen index/indices. -/
inductive Selection where
  | AlwaysOne (index : ℕ)
  | MaybeOne (index : Option ℕ)
  | Multiple (set : Finset ℕ)
  deriving DecidableEq

namespace Selection

/-- selection.rs `Selection::is_multiple`. -/
def is_multiple : Selection → Bool
  | .AlwaysOne _ => false
  | .MaybeOne _ => false
  | .Multiple _ => true

/-- selection.rs `Selection::is_nullable`. -/
def is_nullable : Selection → Bool
  | .AlwaysOne _ => false
  | .MaybeOne _ => true
  | .Multiple _ => true

/-- selection.rs `Selection::includes`. -/
def includes : Selection → ℕ → Bool
  | .MaybeOne Option.none, _ => false
  | .AlwaysOne index, i => index == i
  | .MaybeOne (Option.some index), i => index == i
  | .Multiple set, i => decide (i ∈ set)

/-- selection.rs `Selection::select`.  Returns the new selection and the
changed flag; `BTreeSet::insert` returns true iff the value was absent,
and `Option::replace` returns the previous contents. -/
def select : Selection → ℕ → Selection × Bool
  | .AlwaysOne idx, index =>
      if index != idx then (.AlwaysOne index, true) else (.AlwaysOne idx, false)
  | .MaybeOne maybe_idx, index =>
      match maybe_idx with
      | Option.some old_index => (.MaybeOne (Option.some index), old_index != index)
      | Option.none => (.MaybeOne (Option.some index), true)
  | .Multiple set, index => (.Multiple (insert index set), decide (index ∉ set))

/-- selection.rs `Selection::deselect`.  `BTreeSet::remove` returns true
iff the value was present. -/
def deselect : Selection → ℕ → Selection × Bool
  | .AlwaysOne idx, _ => (.AlwaysOne idx, false)
  | .MaybeOne Option.none, _ => (.MaybeOne Option.none, false)
  | .MaybeOne (Option.some i), index =>
      if index == i then (.MaybeOne Option.none, true)
      else (.MaybeOne (Option.some i), false)
  | .Multiple set, index => (.Multiple (set.erase index), decide (index ∈ set))

/-- selection.rs `Selection::clear`. -/
def clear : Selection → Selection × Bool
  | .AlwaysOne idx => (.AlwaysOne idx, false)
  | .MaybeOne Option.none => (.MaybeOne Option.none, false)
  | .MaybeOne (Option.some _) => (.MaybeOne Option.none, true)
  | .Multiple set => if set = ∅ then (.Multiple set, false) else (.Multiple ∅, true)

end Selection

/-- Rust enum `Filtered` (state.rs): tri-state result of the last filter
pass. -/
inductive Filtered where
  | None
  | Some (set : Finset ℕ)
  | All
  deriving DecidableEq

/-- state.rs `SelectState<T>` with the shared-ownership wrappers elided.
The field `filter_input` is what the specification calls `last_query`. -/
structure SelectState (T : Type) where
  options : List T
  selected_indices : Selection
  filtered_indices : Filtered
  filter_fn : T → String → Bool
  filter_input : Option String

namespace SelectState

variable {T : Type}

/-- The index set computed inside state.rs `SelectState::filter_inner`:
indices of the options whose item passes `filter_fn` on `input`,
collected into a `BTreeSet`. -/
def filterIndices (st : SelectState T) (input : String) : Finset ℕ :=
  ((st.options.enum.filter (fun p => st.filter_fn p.2 input)).map Prod.fst).toFinset

/-- state.rs `SelectState::filter_inner`: recompute `filtered_indices`
from the predicate; an empty match set is stored as `Filtered.None`. -/
def filter_inner (st : SelectState T) (input : String) : SelectState T :=
  let indices := st.filterIndices input
  { st with filtered_indices :=
      if indices = ∅ then Filtered.None else Filtered.Some indices }

/-- state.rs `SelectState::unfilter`: set `filtered_indices` to `All`
(and touch nothing else). -/
def unfilter (st : SelectState T) : SelectState T :=
  { st with filtered_indices := Filtered.All }

/-- state.rs `SelectState::refilter`: re-apply the stored `filter_input`
if there is one, otherwise unfilter. -/
def refilter (st : SelectState T) : SelectState T :=
  match st.filter_input with
  | Option.some input => st.filter_inner input
  | Option.none => st.unfilter

/-- state.rs `SelectState::filter`: when `input` is empty, store it and
run `filter_inner`; when `input` is non-empty, clear the stored input and
unfilter. -/
def filter (st : SelectState T) (input : String) : SelectState T :=
  if input.isEmpty then
    ({ st with filter_input := Option.some input }).filter_inner input
  else
    ({ st with filter_input := Option.none }).unfilter

/-- state.rs `SelectState::replace_options`: reset the selection by
cardinality policy, then `refilter` (still over the old options, exactly
as the source does), then swap in the new options. -/
def replace_options (st : SelectState T) (options : List T) : SelectState T :=
  let st1 : SelectState T :=
    { st with selected_indices :=
        match st.selected_indices with
        | .MaybeOne _ => Selection.MaybeOne Option.none
        | .AlwaysOne _ => Selection.AlwaysOne 0
        | .Multiple _ => Selection.Multiple ∅ }
  let st2 := st1.refilter
  { st2 with options := options }

/-- state.rs `SelectState::get_filtered`: map a position in the filtered
view to the absolute index and item. -/
def get_filtered (st : SelectState T) (position : ℕ) : Option (ℕ × T) :=
  match st.filtered_indices with
  | Filtered.All =>
      match st.options[position]? with
      | Option.some item => Option.some (position, item)
      | Option.none => Option.none
  | Filtered.Some set =>
      match (set.sort (· ≤ ·))[position]? with
      | Option.some index =>
          match st.options[index]? with
          | Option.some item => Option.some (index, item)
          | Option.none => Option.none
      | Option.none => Option.none
  | Filtered.None => Option.none

/-- state.rs `SelectState::filtered_items`. -/
def filtered_items (st : SelectState T) : List (ℕ × Bool × T) :=
  match st.filtered_indices with
  | Filtered.All =>
      st.options.enum.map (fun p => (p.1, st.selected_indices.includes p.1, p.2))
  | Filtered.Some set =>
      (set.sort (· ≤ ·)).filterMap (fun index =>
        st.options[index]?.map
          (fun item => (index, st.selected_indices.includes index, item)))
  | Filtered.None => []

/-- state.rs `SelectState::select`: bounds check, then delegate to
`Selection::select`. -/
def select (st : SelectState T) (index : ℕ) : SelectState T × Bool :=
  if index ≥ st.options.length then (st, false)
  else
    let r := st.selected_indices.select index
    ({ st with selected_indices := r.1 }, r.2)

/-- state.rs `SelectState::deselect`: bounds check, then delegate to
`Selection::deselect`. -/
def deselect (st : SelectState T) (index : ℕ) : SelectState T × Bool :=
  if index ≥ st.options.length then (st, false)
  else
    let r := st.selected_indices.deselect index
    ({ st with selected_indices := r.1 }, r.2)

/-- state.rs `SelectState::clear`: delegate to `Selection::clear`. -/
def clear (st : SelectState T) : SelectState T × Bool :=
  let r := st.selected_indices.clear
  ({ st with selected_indices := r.1 }, r.2)

end SelectState

/-- A single selection mutation, used to quantify over arbitrary
sequences of the three mutating operations. -/
inductive SelOp where
  | sel (index : ℕ)
  | desel (index : ℕ)
  | clr

/-- Apply one mutation to a `Selection`, discarding the changed flag. -/
def Selection.applyOp (s : Selection) : SelOp → Selection
  | SelOp.sel i => (s.select i).1
  | SelOp.desel i => (s.deselect i).1
  | SelOp.clr => s.clear.1

/-- Apply a sequence of mutations to a `Selection`. -/
def Selection.applyOps (s : Selection) : List SelOp → Selection
  | [] => s
  | op :: ops => (s.applyOp op).applyOps ops

/-- Constructor tag of a `Selection`, used to state tag preservation;
the pair `(is_multiple, is_nullable)` determines this tag and conversely. -/
def Selection.tagOf : Selection → ℕ
  | .AlwaysOne _ => 0
  | .MaybeOne _ => 1
  | .Multiple _ => 2

/-- Concrete state for the non-empty-query filter demonstration: the
predicate is exact match, so the query "First" matches exactly index 0. -/
def c2State : SelectState String :=
  { options := ["First", "Second"], selected_indices := Selection.AlwaysOne 0,
    filtered_indices := Filtered.All,
    filter_fn := fun item q => item == q,
    filter_input := Option.none }

/-- Concrete start state for the `replace_options` demonstration: the
predicate matches the item "b" regardless of the query text. -/
def c3Start : SelectState String :=
  { options := ["a", "b"], selected_indices := Selection.MaybeOne (Option.some 1),
    filtered_indices := Filtered.All,
    filter_fn := fun item _q => item == "b",
    filter_input := Option.none }

/-- Concrete start state for the `unfilter` demonstration. -/
def c4Start : SelectState String :=
  { options := ["a"], selected_indices := Selection.MaybeOne Option.none,
    filtered_indices := Filtered.All,
    filter_fn := fun item _q => item == "a",
    filter_input := Option.none }

/-- Concrete state used to witness the out-of-range select/deselect
behaviour. -/
def c9State : SelectState ℕ :=
  { options := [10, 20], selected_indices := Selection.Multiple ∅,
    filtered_indices := Filtered.All,
    filter_fn := fun _item _q => true,
    filter_input := Option.none }

/-- C1: `SelectState.filter` applies the predicate-based narrowing
(computing the passing-index set, stored as `None`/`Some`) only when the
query is empty, and sets the filter result to `All` whenever the query is
non-empty, exactly as state.rs writes the branches. -/
theorem filter_narrows_only_on_empty_query {T : Type} (st : SelectState T) (q : String) :
    (st.filter q).filtered_indices =
      if q.isEmpty then
        (if st.filterIndices q = ∅ then Filtered.None
         else Filtered.Some (st.filterIndices q))
      else Filtered.All := by
  cases hq : q.isEmpty <;>
    simp [SelectState.filter, SelectState.filter_inner, SelectState.unfilter,
      SelectState.filterIndices, hq]

/-- C2: at the failing input, the non-empty query "First" passes the
predicate exactly at index 0, yet `filter "First"` stores `Filtered.All`
and the filtered view lists every option — not the `Some {0}` narrowing
that the corrected type-to-search semantics require. -/
theorem filter_nonempty_query_inverted :
    c2State.filterIndices "First" = {0} ∧
    (c2State.filter "First").filtered_indices = Filtered.All ∧
    (c2State.filter "First").filtered_items =
      [(0, true, "First"), (1, false, "Second")] := by
  decide

/-- C3: starting from `c3Start`, `filter ""` stores the query and narrows
to `{1}`; `replace_options ["c"]` then refilters over the OLD two-element
list (index set {1}) and only afterwards swaps in the new list, so the
stored filter result is `Some {1}` even though the new list has length 1
and re-running the predicate over the new state matches nothing. -/
theorem replace_options_refilters_old_list :
    ((c3Start.filter "").replace_options ["c"]).options = ["c"] ∧
    ((c3Start.filter "").replace_options ["c"]).selected_indices =
      Selection.MaybeOne Option.none ∧
    ((c3Start.filter "").replace_options ["c"]).filtered_indices =
      Filtered.Some {1} ∧
    ((c3Start.filter "").replace_options ["c"]).filterIndices "" = ∅ := by
  decide

/-- C4 counterexample: after `filter ""` the stored query is `some ""`;
`unfilter` sets the filter result to `All` but leaves the stored query in
place, so it is not cleared to none as the claim states. -/
theorem unfilter_keeps_last_query_cex :
    ((c4Start.filter "").unfilter).filtered_indices = Filtered.All ∧
    ((c4Start.filter "").unfilter).filter_input = Option.some "" ∧
    ((c4Start.filter "").unfilter).filter_input ≠ Option.none := by
  decide

/-- C4 amended: for every state, `unfilter` unconditionally sets the
filter result to `All` and leaves the stored query (`filter_input`)
unchanged. -/
theorem unfilter_sets_all_keeps_query {T : Type} (st : SelectState T) :
    st.unfilter.filtered_indices = Filtered.All ∧
    st.unfilter.filter_input = st.filter_input :=
  ⟨rfl, rfl⟩

/-- C6: a filter pass (`filter_inner`) never stores an empty `Some` set:
its result is `None` or `Some` of a nonempty index set. -/
theorem filter_inner_no_empty_subset {T : Type} (st : SelectState T) (q : String) :
    (st.filter_inner q).filtered_indices = Filtered.None ∨
    ∃ s : Finset ℕ, s.Nonempty ∧
      (st.filter_inner q).filtered_indices = Filtered.Some s := by
  by_cases h : st.filterIndices q = ∅
  · exact Or.inl (by simp [SelectState.filter_inner, h])
  · exact Or.inr ⟨st.filterIndices q, Finset.nonempty_iff_ne_empty.mpr h,
      by simp [SelectState.filter_inner, h]⟩

/-- C7: on an `AlwaysOne` (ExactlyOne) selection, `deselect` and `clear`
leave the stored index unchanged and return false. -/
theorem alwaysOne_deselect_clear_noop (idx i : ℕ) :
    Selection.deselect (Selection.AlwaysOne idx) i = (Selection.AlwaysOne idx, false) ∧
    Selection.clear (Selection.AlwaysOne idx) = (Selection.AlwaysOne idx, false) :=
  ⟨rfl, rfl⟩

/-- C9: an index at or beyond the option-list length makes
`SelectState.select` and `SelectState.deselect` return false and leave
the state unchanged; both are total functions, so no panic can occur. -/
theorem select_deselect_out_of_range {T : Type} (st : SelectState T) (i : ℕ)
    (h : st.options.length ≤ i) :
    st.select i = (st, false) ∧ st.deselect i = (st, false) := by
  constructor <;> simp [SelectState.select, SelectState.deselect, h]

/-- Witness for the out-of-range theorem at a concrete state and index. -/
theorem select_deselect_out_of_range_witness :
    c9State.select 5 = (c9State, false) ∧ c9State.deselect 5 = (c9State, false) :=
  select_deselect_out_of_range c9State 5 (by decide)

/-- C8: on a `Multiple` (ZeroOrMany) selection not containing i,
`select i` returns true and inserts i, a second `select i` returns false,
`deselect i` then returns true and restores the original set, a second
`deselect i` returns false, and membership after the insert matches set
semantics. -/
theorem multiple_select_deselect_set_semantics (s : Finset ℕ) (i : ℕ) (h : i ∉ s) :
    ((Selection.Multiple s).select i).2 = true ∧
    ((Selection.Multiple s).select i).1 = Selection.Multiple (insert i s) ∧
    (((Selection.Multiple s).select i).1.select i).2 = false ∧
    (((Selection.Multiple s).select i).1.deselect i).2 = true ∧
    (((Selection.Multiple s).select i).1.deselect i).1 = Selection.Multiple s ∧
    ((((Selection.Multiple s).select i).1.deselect i).1.deselect i).2 = false ∧
    ∀ j, (((Selection.Multiple s).select i).1.includes j) = true ↔ (j ∈ s ∨ j = i) := by
  refine ⟨?_, ?_, ?_, ?_, ?_, ?_, ?_⟩
  · simp [Selection.select, h]
  · simp [Selection.select]
  · simp [Selection.select]
  · simp [Selection.select, Selection.deselect]
  · simp [Selection.select, Selection.deselect, Finset.erase_insert h]
  · simp [Selection.select, Selection.deselect, h]
  · intro j
    simp only [Selection.select, Selection.includes, decide_eq_true_eq,
      Finset.mem_insert]
    tauto

/-- Witness for the multiple-selection set semantics at a concrete set
and index. -/
theorem multiple_select_deselect_set_semantics_witness :
    ((Selection.Multiple ({1, 3} : Finset ℕ)).select 2).2 = true ∧
    (((Selection.Multiple ({1, 3} : Finset ℕ)).select 2).1.deselect 2).1 =
      Selection.Multiple ({1, 3} : Finset ℕ) := by
  have h := multiple_select_deselect_set_semantics {1, 3} 2 (by decide)
  exact ⟨h.1, h.2.2.2.2.1⟩

/-- Helper: one select/deselect/clear step preserves the variant tag and
both capability queries. -/
lemma applyOp_preserves_variant (s : Selection) (op : SelOp) :
    (s.applyOp op).tagOf = s.tagOf ∧
    (s.applyOp op).is_multiple = s.is_multiple ∧
    (s.applyOp op).is_nullable = s.is_nullable := by
  cases op with
  | sel i =>
      cases s with
      | AlwaysOne idx =>
          by_cases hc : (i != idx) = true <;>
            simp [Selection.applyOp, Selection.select, hc, Selection.tagOf,
              Selection.is_multiple, Selection.is_nullable]
      | MaybeOne m =>
          cases m <;>
            simp [Selection.applyOp, Selection.select, Selection.tagOf,
              Selection.is_multiple, Selection.is_nullable]
      | Multiple set =>
          simp [Selection.applyOp, Selection.select, Selection.tagOf,
            Selection.is_multiple, Selection.is_nullable]
  | desel i =>
      cases s with
      | AlwaysOne idx => exact ⟨rfl, rfl, rfl⟩
      | MaybeOne m =>
          cases m with
          | none => exact ⟨rfl, rfl, rfl⟩
          | some j =>
              by_cases hc : (i == j) = true <;>
                simp [Selection.applyOp, Selection.deselect, hc, Selection.tagOf,
                  Selection.is_multiple, Selection.is_nullable]
      | Multiple set => exact ⟨rfl, rfl, rfl⟩
  | clr =>
      cases s with
      | AlwaysOne idx => exact ⟨rfl, rfl, rfl⟩
      | MaybeOne m => cases m <;> exact ⟨rfl, rfl, rfl⟩
      | Multiple set =>
          by_cases hc : set = ∅ <;>
            simp [Selection.applyOp, Selection.clear, hc, Selection.tagOf,
              Selection.is_multiple, Selection.is_nullable]

/-- C10: every sequence of select/deselect/clear operations preserves the
`Selection` variant tag, and hence `is_multiple` and `is_nullable` return
the same value before and after the sequence. -/
theorem selection_mutations_preserve_variant (s : Selection) (ops : List SelOp) :
    (s.applyOps ops).tagOf = s.tagOf ∧
    (s.applyOps ops).is_multiple = s.is_multiple ∧
    (s.applyOps ops).is_nullable = s.is_nullable := by
  induction ops generalizing s with
  | nil => exact ⟨rfl, rfl, rfl⟩
  | cons op ops ih =>
      have h1 := applyOp_preserves_variant s op
      have h2 := ih (s.applyOp op)
      exact ⟨h2.1.trans h1.1, h2.2.1.trans h1.2.1, h2.2.2.trans h1.2.2⟩

/-- Helper: in a strictly sorted list, the number of entries smaller than
the entry at position p is exactly p. -/
lemma countP_lt_getElem_of_sorted :
    ∀ (l : List ℕ), List.Sorted (· < ·) l → ∀ (p : ℕ) (hp : p < l.length),
      l.countP (fun j => decide (j < l[p])) = p := by
  intro l
  induction l with
  | nil => intro _ p hp; simp at hp
  | cons x xs ih =>
      intro hl p hp
      rcases List.sorted_cons.mp hl with ⟨hx, hxs⟩
      cases p with
      | zero =>
          have h0 : (x :: xs)[0] = x := rfl
          rw [h0, List.countP_cons]
          have h1 : xs.countP (fun j => decide (j < x)) = 0 :=
            List.countP_eq_zero.mpr (fun j hj => by
              simp [Nat.not_lt.mpr (Nat.le_of_lt (hx j hj))])
          simp [h1]
      | succ q =>
          have hq : q < xs.length := Nat.lt_of_succ_lt_succ hp
          have hgs : (x :: xs)[q + 1] = xs[q] := rfl
          rw [hgs, List.countP_cons, ih hxs q hq]
          have hx2 : x < xs[q] := hx _ (List.getElem_mem hq)
          simp [hx2]

/-- C5: `get_filtered` maps a filtered-view position to an absolute index
and item: with `All`, position is the index itself (bounds-checked); with
`Some set` whose indices are within bounds, position p yields the p-th
smallest qualifying index together with its item when p is inside the
subset, and nothing when p is at or beyond the subset size; with `None`,
always nothing. -/
theorem get_filtered_position_mapping {T : Type} (st : SelectState T) (p : ℕ) :
    (st.filtered_indices = Filtered.All →
      st.get_filtered p = st.options[p]?.map (fun item => (p, item))) ∧
    (∀ set : Finset ℕ, st.filtered_indices = Filtered.Some set →
      (∀ i ∈ set, i < st.options.length) →
      ((set.card ≤ p → st.get_filtered p = Option.none) ∧
       ∀ i, (set.sort (· ≤ ·))[p]? = Option.some i →
         i ∈ set ∧
         (set.sort (· ≤ ·)).countP (fun j => decide (j < i)) = p ∧
         ∃ item, st.options[i]? = Option.some item ∧
           st.get_filtered p = Option.some (i, item))) ∧
    (st.filtered_indices = Filtered.None → st.get_filtered p = Option.none) := by
  obtain ⟨opts, sel, fi, ff, finp⟩ := st
  refine ⟨?_, ?_, ?_⟩
  · intro hAll
    cases hAll
    cases ho : opts[p]? <;> simp [SelectState.get_filtered, ho]
  · intro set hset hbound
    cases hset
    refine ⟨?_, ?_⟩
    · intro hcard
      have hnone : (set.sort (· ≤ ·))[p]? = Option.none :=
        List.getElem?_eq_none (by rw [Finset.length_sort]; exact hcard)
      simp [SelectState.get_filtered, hnone]
    · intro i hi
      rcases List.getElem?_eq_some_iff.mp hi with ⟨hlt, hget⟩
      have hmemsort : i ∈ set.sort (· ≤ ·) := hget ▸ List.getElem_mem hlt
      have hmem : i ∈ set := (Finset.mem_sort (· ≤ ·)).mp hmemsort
      have hcount : (set.sort (· ≤ ·)).countP (fun j => decide (j < i)) = p := by
        have hc := countP_lt_getElem_of_sorted (set.sort (· ≤ ·))
          (Finset.sort_sorted_lt set) p hlt
        rw [hget] at hc
        exact hc
      have hilen : i < opts.length := hbound i hmem
      refine ⟨hmem, hcount, opts[i], List.getElem?_eq_getElem hilen, ?_⟩
      simp [SelectState.get_filtered, hi, List.getElem?_eq_getElem hilen]
  · intro hN
    cases hN
    rfl

/-- Concrete state for the `get_filtered` witness: three options with the
subset {0, 2} stored as the filter result. -/
def c5State : SelectState String :=
  { options := ["a", "b", "c"], selected_indices := Selection.AlwaysOne 0,
    filtered_indices := Filtered.Some {0, 2},
    filter_fn := fun _item _q => true,
    filter_input := Option.none }

/-- Witness: at position 1 of the filtered view {0, 2}, `get_filtered`
returns absolute index 2 with its item "c". -/
theorem get_filtered_position_mapping_witness :
    c5State.get_filtered 1 = Option.some (2, "c") := by
  have hs : (({0, 2} : Finset ℕ).sort (· ≤ ·)) = [0, 2] := by
    rw [Finset.sort_insert (· ≤ ·) (by decide) (by decide), Finset.sort_singleton]
  have h := (get_filtered_position_mapping c5State 1).2.1 {0, 2} rfl (by decide)
  obtain ⟨-, -, item, hitem, hres⟩ := h.2 2 (by rw [hs]; rfl)
  have hc : c5State.options[2]? = Option.some "c" := by decide
  have hci : "c" = item := Option.some.inj (hc.symm.trans hitem)
  rw [← hci] at hres
  exact hres
